import Mathlib

/-!
# Verification of the lua-tessel USB transport layer

A shallow embedding of `src/comms/transport/USBTransport.js`: device
enumeration, the log-channel decoder, the message-channel reassembly and
framing, the claim-failure classification in `init`, and `close`.

Bytes are modelled as `Nat` (each byte of a real buffer is `< 256`, but no
definition below depends on that bound), buffers as `List Nat`, and the
little-endian 32-bit header fields as explicit `% 256` arithmetic, matching
`Buffer.writeUInt32LE` / `Buffer.readUInt32LE`.
-/

/-- Constant `TRANSFER_SIZE` from the source: the maximum USB chunk size. -/
def TRANSFER_SIZE : Nat := 4096

/-- The oversize threshold from the source: `32 * 1024 * 1024` bytes. -/
def OVERSIZE_LIMIT : Nat := 32 * 1024 * 1024

/-- One hex digit, lowercase, as produced by `Buffer.toString('hex')`. -/
def hexChar (n : Nat) : Char :=
  if n < 10 then Char.ofNat (48 + n) else Char.ofNat (87 + n)

/-- Two hex digits for one byte. -/
def byteToHex (b : Nat) : List Char := [hexChar (b / 16), hexChar (b % 16)]

/-- Model of `buf.toString('hex', start, stop)`: hex-encode the byte range
`[start, stop)`, clamped to the buffer, as Node does. -/
def bufToHex (buf : List Nat) (start stop : Nat) : String :=
  String.mk (List.flatten (((buf.drop start).take (stop - start)).map byteToHex))

/-- The little-endian 32-bit value read at offset `off` (no bounds check;
missing bytes read as 0).  `readUInt32LE` adds the Node bounds check. -/
def le32At (buf : List Nat) (off : Nat) : Nat :=
  buf.getD off 0 + buf.getD (off + 1) 0 * 256
    + buf.getD (off + 2) 0 * 65536 + buf.getD (off + 3) 0 * 16777216

/-- Model of `Buffer.writeUInt32LE value`: the four little-endian bytes of `value`. -/
def writeUInt32LE (n : Nat) : List Nat :=
  [n % 256, n / 256 % 256, n / 65536 % 256, n / 16777216 % 256]

/-- Errors raised by the MessagesIn data handler. -/
inductive MsgError where
  /-- Node `RangeError` from `readUInt32LE` when `offset + 4` exceeds the
  buffer length. -/
  | indexOutOfRange : MsgError
  /-- `"Malformed message (oversize)"`, carrying the hex of the first eight
  bytes of the first accumulated chunk. -/
  | oversize (header : String) : MsgError
deriving DecidableEq, Repr

/-- Model of `Buffer.readUInt32LE off`: little-endian read with the Node range
check. -/
def readUInt32LE (buf : List Nat) (off : Nat) : Except MsgError Nat :=
  if off + 4 ≤ buf.length then .ok (le32At buf off) else .error .indexOutOfRange

/-- An event emitted by the transport's message channel. -/
inductive MsgEvent where
  | message (tag : Nat) (payload : List Nat) : MsgEvent
deriving DecidableEq, Repr

/-- One firing of the MessagesIn `data` handler
(`USBTransport.prototype._initMessageInEndpoint`, lines 247-268).  State is
the list of accumulated chunks (`buffers`); the result is the new state plus
the `message` events emitted, or the error thrown.

Source order preserved: the chunk is pushed first; a chunk shorter than
`TRANSFER_SIZE` flushes (concatenate; if nonempty, read `length` at 0 then
`tag` at 4, drop 8 bytes, emit; clear); otherwise the oversize guard
compares `buffers.length * TRANSFER_SIZE` against 32 MiB. -/
def messageInStep (buffers : List (List Nat)) (data : List Nat) :
    Except MsgError (List (List Nat) × List MsgEvent) :=
  let acc := buffers ++ [data]
  if data.length < TRANSFER_SIZE then
    let buffer := acc.flatten
    if 0 < buffer.length then
      match readUInt32LE buffer 0 with
      | .error e => .error e
      | .ok _len =>
        match readUInt32LE buffer 4 with
        | .error e => .error e
        | .ok tag => .ok ([], [MsgEvent.message tag (buffer.drop 8)])
    else .ok ([], [])
  else if OVERSIZE_LIMIT < acc.length * TRANSFER_SIZE then
    .error (.oversize (bufToHex (acc.headD []) 0 8))
  else .ok (acc, [])

/-- Run the MessagesIn handler over a chunk sequence from an explicit
starting state, accumulating emitted events; an error aborts the run (the
handler throws). -/
def messageInRunFrom (bufs : List (List Nat)) (evs : List MsgEvent) :
    List (List Nat) → Except MsgError (List (List Nat) × List MsgEvent)
  | [] => .ok (bufs, evs)
  | c :: rest =>
    match messageInStep bufs c with
    | .error e => .error e
    | .ok s => messageInRunFrom s.1 (evs ++ s.2) rest

/-- Run the MessagesIn handler over a chunk sequence from the initial empty
state (`buffers = []`). -/
def messageInRun (chunks : List (List Nat)) :
    Except MsgError (List (List Nat) × List MsgEvent) :=
  messageInRunFrom [] [] chunks

/-- Model of `USBTransport.prototype._postMessage` (lines 311-330): an 8-byte header
(payload length LE32, tag LE32) followed by the payload, written to
MessagesOut as one logical transfer. -/
def USBTransport.postMessage (tag : Nat) (data : List Nat) : List Nat :=
  writeUInt32LE data.length ++ writeUInt32LE tag ++ data

/-- Split a byte stream into the chunk sequence a USB bulk read delivers:
maximal `TRANSFER_SIZE` chunks followed by a strictly short final chunk
(zero-length when the stream is an exact multiple, the ZLP convention). -/
def chunked (bytes : List Nat) : List (List Nat) :=
  if h : bytes.length < TRANSFER_SIZE then [bytes]
  else bytes.take TRANSFER_SIZE :: chunked (bytes.drop TRANSFER_SIZE)
termination_by bytes.length
decreasing_by
  simp only [List.length_drop, TRANSFER_SIZE] at h ⊢
  omega

/-- A `debug` event from the log endpoint: severity byte and message bytes
(the source decodes the bytes as UTF-8; the record keeps the exact byte
range so the statement "the text is the UTF-8 decoding of exactly those
bytes" is the identity on the byte level).  `level` is `none` when the
chunk ends right after an STX marker, where the JS reads `data[pos + 1]`
out of range and gets `undefined`. -/
structure LogRecord where
  level : Option Nat
  text : List Nat
deriving DecidableEq, Repr

/-- The error thrown by the log `data` handler:
`'Expected STX at ' + pos + ', got ' + data[pos] + 'instead'`. -/
inductive LogError where
  | expectedSTX (pos : Nat) (found : Nat) : LogError
deriving DecidableEq, Repr

/-- The scanning loop of the log `data` handler
(`USBTransport.prototype._initLogEndpoint`, lines 207-225), on the part of
the chunk from offset `pos`.  At each position: the byte must be the STX
marker 1 (else throw, keeping the events already emitted); the next byte is
the severity; the text runs to the next STX marker or the end of the chunk;
then the loop resumes at that marker. -/
def logDecodeGo (chunk : List Nat) (pos : Nat) : List LogRecord × Option LogError :=
  match chunk with
  | [] => ([], none)
  | b :: rest =>
    if b = 1 then
      match rest with
      | [] => ([⟨none, []⟩], none)
      | lvl :: rest2 =>
        let text := rest2.takeWhile (fun x => x != 1)
        let next := logDecodeGo (rest2.dropWhile (fun x => x != 1))
          (pos + 2 + text.length)
        (⟨some lvl, text⟩ :: next.1, next.2)
    else ([], some (.expectedSTX pos b))
termination_by chunk.length
decreasing_by
  have := (List.dropWhile_sublist (l := rest2) (fun x => x != 1)).length_le
  simp only [List.length_cons] at *
  omega

/-- Decode one log chunk in isolation, from offset 0, as the source does
(no cross-chunk buffering). -/
def logDecode (chunk : List Nat) : List LogRecord × Option LogError :=
  logDecodeGo chunk 0

/-- Serialise a list of `(level, text)` log records into one well-formed
log chunk: `STX level text` per record. -/
def encodeLog (records : List (Nat × List Nat)) : List Nat :=
  (records.map (fun r => 1 :: r.1 :: r.2)).flatten

/-- The fields of a libusb device descriptor that the transport consults.
`bcdDevice` is the 16-bit firmware revision. -/
structure DeviceDescriptor where
  idVendor : Nat
  idProduct : Nat
  bcdDevice : Nat
deriving DecidableEq, Repr

/-- Model of `USBTransport.getDevices` (lines 62-72): filter the enumerated device
list down to Tessel vendor/product ids, excluding bootloader-mode devices
(`bcdDevice >> 8 != 0`). -/
def USBTransport.getDevices (attached : List DeviceDescriptor) : List DeviceDescriptor :=
  attached.filter (fun d =>
    d.idVendor == 0x1d50 && d.idProduct == 0x6097 && d.bcdDevice >>> 8 != 0)

/-- Model of `USBTransport.getFirstDevice` (lines 82-87): the first filtered device,
or the `'No Tessel devices found'` error when the filtered list is empty. -/
def USBTransport.getFirstDevice (attached : List DeviceDescriptor) :
    Except String DeviceDescriptor :=
  match USBTransport.getDevices attached with
  | [] => .error "No Tessel devices found"
  | d :: _ => .ok d

/-- The outcome of a `close()` call: the source's promise executor calls
only `resolve`, never `reject`, so the only outcome is `resolved`.  The
constructor `rejected` exists so that "never fails outward" is a statement
rather than a typing triviality. -/
inductive CloseOutcome where
  | resolved : CloseOutcome
  | rejected (err : String) : CloseOutcome
deriving DecidableEq, Repr

/-- The transport state that `close()` consults: whether `_interface` is
non-null, whether `_device` is non-null, and whether the device handle is
still open. -/
structure USBState where
  hasInterface : Bool
  hasDevice : Bool
  deviceOpen : Bool
deriving DecidableEq, Repr

/-- Model of `USBTransport.prototype.close` (lines 360-373).  `releaseErr` is the
error, if any, that the underlying `interface.release` reports to its
callback.

When `_interface` is null the executor calls `resolve()` and then throws a
`TypeError` dereferencing `_interface.release`; a throw after `resolve` in a
promise executor is swallowed, so outwardly the call resolves with the state
unchanged.  Otherwise `release`'s callback ignores `err`, closes the device
handle when `_device` is non-null, nulls `_interface`, and resolves. -/
def USBTransport.close (s : USBState) (releaseErr : Option String) :
    CloseOutcome × USBState :=
  if s.hasInterface then
    (.resolved,
      { s with hasInterface := false,
               deviceOpen := if s.hasDevice then false else s.deviceOpen })
  else
    (.resolved, s)

/-- The classification in `_getDeviceInterface`'s catch block
(lines 159-164): a claim failure whose message is `LIBUSB_ERROR_BUSY`
rejects with the `'Device is in use by another process'` error; any other
claim failure rejects with the original error.  (The source calls `reject`
a second time with the original error in the busy case, but a settled
promise ignores further rejections.) -/
def USBTransport.getDeviceInterface (claimResult altSettingResult : Except String Unit) :
    Except String Unit :=
  match claimResult with
  | .error e =>
      .error (if e = "LIBUSB_ERROR_BUSY" then "Device is in use by another process" else e)
  | .ok _ => altSettingResult

/-- The environment `init()` runs against: the enumerated device list and
the outcomes of the interface claim, the alt-setting selection, and the
serial-descriptor read. -/
structure InitEnv where
  devices : List DeviceDescriptor
  claimResult : Except String Unit
  altSettingResult : Except String Unit
  serialResult : Except String String
deriving Repr

/-- The observable outcome of `init()` (lines 96-123): the promise either
rejects with an error or fulfils with the ready transport (here represented
by the serial number it announces). -/
inductive InitOutcome where
  | ready (serial : String) : InitOutcome
  | failed (err : String) : InitOutcome
deriving DecidableEq, Repr

/-- Model of `USBTransport.prototype.init`: resolve the first device (rejecting with
`DeviceNotFound` if none), then claim interface 0 / select alt setting 1,
and read the serial descriptor.  A claim failure throws synchronously inside
the `_getDeviceInterface` executor, so its rejection settles `Promise.all`
before the asynchronous serial read can report; the interface errors are
therefore checked before the serial result here.  (Rejections after the
first are ignored by the already-settled promise, as are the side effects
the source keeps running after `reject`.) -/
def USBTransport.init (env : InitEnv) : InitOutcome :=
  match USBTransport.getFirstDevice env.devices with
  | .error e => .failed e
  | .ok _ =>
    match USBTransport.getDeviceInterface env.claimResult env.altSettingResult with
    | .error e => .failed e
    | .ok _ =>
      match env.serialResult with
      | .error e => .failed e
      | .ok serial => .ready serial

/-! ## List helper lemmas -/

theorem flatten_length_of_full {l : List (List Nat)} {n : Nat}
    (h : ∀ c ∈ l, c.length = n) : l.flatten.length = l.length * n := by
  induction l with
  | nil => simp
  | cons c rest ih =>
    simp only [List.flatten_cons, List.length_append, List.length_cons]
    rw [h c (by simp), ih (fun c hc => h c (by simp [hc]))]
    ring

theorem headD_append_left {α : Type} (l₁ l₂ : List α) (d : α) (h : l₁ ≠ []) :
    (l₁ ++ l₂).headD d = l₁.headD d := by
  cases l₁ with
  | nil => exact absurd rfl h
  | cons a t => simp

theorem getD_drop_add (l : List Nat) (n i : Nat) :
    (l.drop n).getD i 0 = l.getD (n + i) 0 := by
  simp [List.getD_eq_getElem?_getD, List.getElem?_drop]

theorem le32At_eq_of_drop_eq {buf buf' : List Nat}
    (h : buf.drop 4 = buf'.drop 4) : le32At buf 4 = le32At buf' 4 := by
  have h' : ∀ i, buf.getD (4 + i) 0 = buf'.getD (4 + i) 0 := by
    intro i
    rw [← getD_drop_add buf 4 i, ← getD_drop_add buf' 4 i, h]
  have h4 := h' 0
  have h5 := h' 1
  have h6 := h' 2
  have h7 := h' 3
  simp only [Nat.add_zero] at h4
  simp only [le32At, h4, h5, h6, h7]

/-! ## Message channel: single-step lemmas -/

/-- A short chunk with at least a full header accumulated flushes: exactly
one `message` event, tag read LE32 at offset 4, payload after the 8-byte
header, buffers cleared. -/
theorem messageInStep_flush (bufs : List (List Nat)) (data : List Nat)
    (hshort : data.length < TRANSFER_SIZE)
    (hlen : 8 ≤ ((bufs ++ [data]).flatten).length) :
    messageInStep bufs data =
      .ok ([], [MsgEvent.message (le32At ((bufs ++ [data]).flatten) 4)
        (((bufs ++ [data]).flatten).drop 8)]) := by
  have h0 : 0 < ((bufs ++ [data]).flatten).length := by omega
  have h4 : 0 + 4 ≤ ((bufs ++ [data]).flatten).length := by omega
  have h8 : 4 + 4 ≤ ((bufs ++ [data]).flatten).length := by omega
  simp only [messageInStep, readUInt32LE]
  rw [if_pos hshort, if_pos h0, if_pos h4, if_pos h8]

/-- A maximum-size chunk under the oversize limit only accumulates. -/
theorem messageInStep_full (bufs : List (List Nat)) (data : List Nat)
    (hfull : data.length = TRANSFER_SIZE) (hcount : bufs.length + 1 ≤ 8192) :
    messageInStep bufs data = .ok (bufs ++ [data], []) := by
  have h1 : ¬ data.length < TRANSFER_SIZE := by omega
  have h2 : ¬ OVERSIZE_LIMIT < (bufs ++ [data]).length * TRANSFER_SIZE := by
    simp only [List.length_append, List.length_cons, List.length_nil,
      OVERSIZE_LIMIT, TRANSFER_SIZE]
    omega
  simp only [messageInStep]
  rw [if_neg h1, if_neg h2]

/-- A maximum-size chunk that pushes the accumulated chunk count past
8192 (that is, past 32 MiB of accumulated bytes) throws the oversize
error, hex-encoding the first 8 bytes of the first accumulated chunk. -/
theorem messageInStep_oversize (bufs : List (List Nat)) (data : List Nat)
    (hfull : ¬ data.length < TRANSFER_SIZE) (hcount : 8192 < bufs.length + 1) :
    messageInStep bufs data =
      .error (.oversize (bufToHex ((bufs ++ [data]).headD []) 0 8)) := by
  have h2 : OVERSIZE_LIMIT < (bufs ++ [data]).length * TRANSFER_SIZE := by
    simp only [List.length_append, List.length_cons, List.length_nil,
      OVERSIZE_LIMIT, TRANSFER_SIZE]
    omega
  simp only [messageInStep]
  rw [if_neg hfull, if_pos h2]

/-! ## Message channel: run-level lemmas -/

/-- Processing a prefix of maximum-size chunks only accumulates them, in
order, and emits nothing, as long as the accumulated count stays within the
8192-chunk (32 MiB) budget. -/
theorem messageInRunFrom_fullChunks (pre : List (List Nat)) :
    ∀ (bufs : List (List Nat)) (evs : List MsgEvent) (rest : List (List Nat)),
    (∀ c ∈ pre, c.length = TRANSFER_SIZE) → bufs.length + pre.length ≤ 8192 →
    messageInRunFrom bufs evs (pre ++ rest) = messageInRunFrom (bufs ++ pre) evs rest := by
  induction pre with
  | nil => intro bufs evs rest _ _; simp
  | cons c pre ih =>
    intro bufs evs rest hfull hcount
    have hc : c.length = TRANSFER_SIZE := hfull c (by simp)
    have hstep := messageInStep_full bufs c hc (by simp at hcount; omega)
    simp only [List.cons_append, messageInRunFrom, hstep, List.append_nil,
      List.append_eq]
    rw [ih (bufs ++ [c]) evs rest (fun x hx => hfull x (by simp [hx]))
      (by simp at hcount ⊢; omega)]
    simp

/-- A sequence of maximum-size chunks followed by one strictly short chunk
carrying at least a full header reassembles into exactly one `message`
event and leaves the accumulation buffer empty. -/
theorem messageInRun_frame (pre : List (List Nat)) (last : List Nat)
    (hfull : ∀ c ∈ pre, c.length = TRANSFER_SIZE)
    (hshort : last.length < TRANSFER_SIZE)
    (hpre : pre.length ≤ 8192)
    (hlen : 8 ≤ ((pre ++ [last]).flatten).length) :
    messageInRun (pre ++ [last]) =
      .ok ([], [MsgEvent.message (le32At ((pre ++ [last]).flatten) 4)
        (((pre ++ [last]).flatten).drop 8)]) := by
  have hflush := messageInStep_flush pre last hshort hlen
  rw [messageInRun,
    messageInRunFrom_fullChunks pre [] [] [last] hfull (by simpa using hpre)]
  simp only [List.nil_append, messageInRunFrom, hflush]

/-- If every chunk is of maximum size and enough of them arrive to exceed
the 32 MiB budget, the run aborts with the oversize error carrying the hex
of the first 8 bytes of the first accumulated chunk. -/
theorem messageInRunFrom_oversize (chunks : List (List Nat)) :
    ∀ (bufs : List (List Nat)) (evs : List MsgEvent),
    (∀ c ∈ chunks, c.length = TRANSFER_SIZE) →
    bufs.length ≤ 8192 → 8192 < bufs.length + chunks.length →
    messageInRunFrom bufs evs chunks =
      .error (.oversize (bufToHex ((bufs ++ chunks).headD []) 0 8)) := by
  induction chunks with
  | nil => intro bufs evs _ h1 h2; simp at h2; omega
  | cons c rest ih =>
    intro bufs evs hfull h1 h2
    have hc : c.length = TRANSFER_SIZE := hfull c (by simp)
    by_cases hb : bufs.length = 8192
    · have hstep := messageInStep_oversize bufs c (by omega) (by omega)
      simp only [messageInRunFrom, hstep]
      have hne : bufs ≠ [] := by
        intro hnil; rw [hnil] at hb; simp at hb
      rw [headD_append_left bufs [c] [] hne, headD_append_left bufs (c :: rest) [] hne]
    · have hstep := messageInStep_full bufs c hc (by omega)
      simp only [messageInRunFrom, hstep, List.append_nil]
      rw [ih (bufs ++ [c]) evs (fun x hx => hfull x (by simp [hx]))
        (by simp; omega) (by simp at h2 ⊢; omega)]
      simp

/-! ## Chunking lemmas -/

/-- Every chunking produced by `chunked` is a run of maximum-size chunks
followed by one strictly short chunk, and concatenates back to the input. -/
theorem chunked_spec (fuel : Nat) : ∀ (bytes : List Nat), bytes.length ≤ fuel →
    ∃ pre last, chunked bytes = pre ++ [last]
      ∧ (∀ c ∈ pre, c.length = TRANSFER_SIZE)
      ∧ last.length < TRANSFER_SIZE
      ∧ pre.flatten ++ last = bytes := by
  induction fuel with
  | zero =>
    intro bytes hb
    have hlen : bytes.length = 0 := by omega
    refine ⟨[], bytes, ?_, by simp, ?_, by simp⟩
    · rw [chunked, dif_pos (by simp [TRANSFER_SIZE]; omega)]
      rfl
    · simp [TRANSFER_SIZE]; omega
  | succ fuel ih =>
    intro bytes hb
    by_cases hshort : bytes.length < TRANSFER_SIZE
    · exact ⟨[], bytes, by rw [chunked, dif_pos hshort]; rfl, by simp, hshort, by simp⟩
    · obtain ⟨pre, last, heq, hfull, hlast, hjoin⟩ :=
        ih (bytes.drop TRANSFER_SIZE)
          (by simp only [List.length_drop, TRANSFER_SIZE] at *; omega)
      refine ⟨bytes.take TRANSFER_SIZE :: pre, last, ?_, ?_, hlast, ?_⟩
      · rw [chunked, dif_neg hshort, heq]
        simp
      · intro c hc
        rcases List.mem_cons.mp hc with h | h
        · rw [h, List.length_take]
          simp only [TRANSFER_SIZE] at *
          omega
        · exact hfull c h
      · simp only [List.flatten_cons, List.append_assoc, hjoin,
          List.take_append_drop]

/-! ## Outbound frame lemmas -/

theorem postMessage_length (tag : Nat) (data : List Nat) :
    (USBTransport.postMessage tag data).length = data.length + 8 := by
  simp [USBTransport.postMessage, writeUInt32LE]

theorem postMessage_drop8 (tag : Nat) (data : List Nat) :
    (USBTransport.postMessage tag data).drop 8 = data := rfl

theorem postMessage_le32At_tag (tag : Nat) (data : List Nat) :
    le32At (USBTransport.postMessage tag data) 4 = tag % 4294967296 := by
  have h : le32At (USBTransport.postMessage tag data) 4
      = tag % 256 + tag / 256 % 256 * 256 + tag / 65536 % 256 * 65536
        + tag / 16777216 % 256 * 16777216 := rfl
  rw [h]
  omega

/-! ## Log channel lemmas -/

theorem encodeLog_head_shape (records : List (Nat × List Nat)) :
    encodeLog records = [] ∨ ∃ t, encodeLog records = 1 :: t := by
  cases records with
  | nil => left; rfl
  | cons r rest =>
    right
    exact ⟨r.1 :: (r.2 ++ encodeLog rest), by simp [encodeLog]⟩

theorem logDecodeGo_encodeLog (records : List (Nat × List Nat)) :
    ∀ pos : Nat, (∀ r ∈ records, (1 : Nat) ∉ r.2) →
    logDecodeGo (encodeLog records) pos =
      (records.map (fun r => ⟨some r.1, r.2⟩), none) := by
  induction records with
  | nil => intro pos _; simp [encodeLog, logDecodeGo]
  | cons r rest ih =>
    intro pos hclean
    have henc : encodeLog (r :: rest) = 1 :: r.1 :: (r.2 ++ encodeLog rest) := by
      simp [encodeLog]
    have htxt : ∀ x ∈ r.2, (x != 1) = true := by
      intro x hx
      have hne : (1 : Nat) ∉ r.2 := hclean r (by simp)
      simp only [bne_iff_ne, ne_eq]
      intro he
      rw [he] at hx
      exact hne hx
    have htake : (r.2 ++ encodeLog rest).takeWhile (fun x => x != 1) = r.2 := by
      rw [List.takeWhile_append_of_pos htxt]
      rcases encodeLog_head_shape rest with h | ⟨t, h⟩
      · rw [h]; simp
      · rw [h]; simp [List.takeWhile_cons]
    have hdrop : (r.2 ++ encodeLog rest).dropWhile (fun x => x != 1) = encodeLog rest := by
      rw [List.dropWhile_append_of_pos htxt]
      rcases encodeLog_head_shape rest with h | ⟨t, h⟩
      · rw [h]; rfl
      · rw [h]; simp [List.dropWhile_cons]
    rw [henc]
    simp only [logDecodeGo, if_pos rfl, htake, hdrop]
    rw [ih (pos + 2 + r.2.length) (fun x hx => hclean x (by simp [hx]))]
    simp

/-! ## Claim theorems -/

/-- C1. For every 32-bit tag and every payload fitting the 32 MiB
reassembly budget, the post-message send path (`_postMessage`) produces the
bytes `[payload length as LE32][tag as LE32][payload]`, and feeding those
bytes back through the inbound MessagesIn decoder as a chunk sequence
ending in a short chunk yields back exactly `(tag, payload)`: the
encode-then-decode round-trip law. -/
theorem frame_roundtrip (tag : Nat) (payload : List Nat)
    (htag : tag < 4294967296)
    (hsize : payload.length + 8 ≤ 32 * 1024 * 1024) :
    USBTransport.postMessage tag payload
      = writeUInt32LE payload.length ++ writeUInt32LE tag ++ payload
    ∧ messageInRun (chunked (USBTransport.postMessage tag payload))
      = .ok ([], [MsgEvent.message tag payload]) := by
  refine ⟨rfl, ?_⟩
  obtain ⟨pre, last, heq, hfull, hshort, hjoin⟩ :=
    chunked_spec (USBTransport.postMessage tag payload).length
      (USBTransport.postMessage tag payload) le_rfl
  have hflat : (pre ++ [last]).flatten = USBTransport.postMessage tag payload := by
    simpa using hjoin
  have hplen : (USBTransport.postMessage tag payload).length = payload.length + 8 :=
    postMessage_length tag payload
  have hpre : pre.length ≤ 8192 := by
    have h1 : pre.flatten.length = pre.length * TRANSFER_SIZE :=
      flatten_length_of_full hfull
    have h2 : pre.flatten.length ≤ (USBTransport.postMessage tag payload).length := by
      rw [← hjoin]
      simp
    simp only [TRANSFER_SIZE] at h1
    omega
  have hlen : 8 ≤ ((pre ++ [last]).flatten).length := by
    rw [hflat]
    omega
  rw [heq, messageInRun_frame pre last hfull hshort hpre hlen, hflat,
    postMessage_drop8, postMessage_le32At_tag, Nat.mod_eq_of_lt htag]

/-- Witness for C1 at `tag = 3`, `payload = [9, 8, 7]`. -/
theorem frame_roundtrip_witness :
    messageInRun (chunked (USBTransport.postMessage 3 [9, 8, 7]))
      = .ok ([], [MsgEvent.message 3 [9, 8, 7]]) :=
  (frame_roundtrip 3 [9, 8, 7] (by decide) (by decide)).2

/-- C2. For every chunk sequence whose proper prefix consists of
maximum-size (4096-byte) chunks and whose final chunk is strictly shorter,
with the concatenation a valid frame (at least the 8 header bytes, within
the 32 MiB budget): reassembly emits exactly one `message` event whose tag
is the LE32 at bytes 4-7 of the concatenation and whose payload is the
concatenation minus the first 8 bytes, the accumulation buffer is empty
afterwards, no `message` event is emitted before the short chunk arrives,
and a lone zero-length chunk is discarded silently. -/
theorem messagesIn_reassembly (pre : List (List Nat)) (last : List Nat)
    (hfull : ∀ c ∈ pre, c.length = TRANSFER_SIZE)
    (hshort : last.length < TRANSFER_SIZE)
    (hframe : 8 ≤ ((pre ++ [last]).flatten).length)
    (hbudget : ((pre ++ [last]).flatten).length ≤ OVERSIZE_LIMIT) :
    messageInRun (pre ++ [last])
      = .ok ([], [MsgEvent.message (le32At ((pre ++ [last]).flatten) 4)
          (((pre ++ [last]).flatten).drop 8)])
    ∧ messageInRun pre = .ok (pre, [])
    ∧ messageInRun [[]] = .ok ([], []) := by
  have hpre : pre.length ≤ 8192 := by
    have h1 : pre.flatten.length = pre.length * TRANSFER_SIZE :=
      flatten_length_of_full hfull
    have h2 : pre.flatten.length ≤ ((pre ++ [last]).flatten).length := by
      simp
    simp only [TRANSFER_SIZE, OVERSIZE_LIMIT] at *
    omega
  refine ⟨messageInRun_frame pre last hfull hshort hpre hframe, ?_, rfl⟩
  have h := messageInRunFrom_fullChunks pre [] [] [] hfull (by simpa using hpre)
  simpa [messageInRun] using h

/-- Witness for C2 at a single short chunk holding a 9-byte frame. -/
theorem messagesIn_reassembly_witness :
    messageInRun ([] ++ [[(1 : Nat), 0, 0, 0, 7, 0, 0, 0, 42]])
      = .ok ([], [MsgEvent.message 7 [42]]) := by
  have h := (messagesIn_reassembly [] [1, 0, 0, 0, 7, 0, 0, 0, 42]
    (by simp) (by decide) (by decide) (by decide)).1
  exact h.trans rfl

/-- C3. If every inbound chunk has exactly the maximum size (so no
short chunk ever arrives), then as soon as the accumulated size exceeds
32 MiB — that is, once more than 8192 chunks have arrived — the decoder
aborts with the fatal oversize error carrying the first 8 bytes of the
first chunk hex-encoded, and no `message` event is emitted for that data
(an error result carries no events). -/
theorem messagesIn_oversize (chunks : List (List Nat))
    (hfull : ∀ c ∈ chunks, c.length = TRANSFER_SIZE)
    (hcount : 8192 < chunks.length) :
    messageInRun chunks = .error (.oversize (bufToHex (chunks.headD []) 0 8)) := by
  have h := messageInRunFrom_oversize chunks [] [] hfull (by simp)
    (by simpa using hcount)
  simpa [messageInRun] using h

/-- Witness for C3 at 8193 all-zero maximum-size chunks. -/
theorem messagesIn_oversize_witness :
    messageInRun (List.replicate 8193 (List.replicate 4096 (0 : Nat)))
      = .error (.oversize (bufToHex
          ((List.replicate 8193 (List.replicate 4096 (0 : Nat))).headD []) 0 8)) := by
  refine messagesIn_oversize _ ?_ (by simp only [List.length_replicate]; omega)
  intro c hc
  rw [List.eq_of_mem_replicate hc]
  simp only [List.length_replicate, TRANSFER_SIZE]

/-- C4. For every well-formed log chunk
`STX level1 text1 STX level2 text2 ...` in which no text contains the STX
byte, decoding the chunk in isolation emits one `debug(text_i, level_i)`
event per record, in record order, each text being exactly the bytes
between that record's severity byte and the next STX marker (or the end of
the chunk), and no error is raised. -/
theorem log_decode_records (records : List (Nat × List Nat))
    (hclean : ∀ r ∈ records, (1 : Nat) ∉ r.2) :
    logDecode (encodeLog records)
      = (records.map (fun r => ⟨some r.1, r.2⟩), none) :=
  logDecodeGo_encodeLog records 0 hclean

/-- Witness for C4 at two records: severity 2 text "hi", severity 3 empty
text. -/
theorem log_decode_records_witness :
    logDecode (encodeLog [(2, [104, 105]), (3, [])])
      = ([⟨some 2, [104, 105]⟩, ⟨some 3, []⟩], none) :=
  (log_decode_records [(2, [104, 105]), (3, [])] (by decide)).trans rfl

/-- C5. For every non-empty log chunk whose first byte is not the STX
marker, decoding raises the fatal framing error (reporting offset 0 and the
offending byte) and emits no `debug` event for that chunk. -/
theorem log_malformed_chunk (b : Nat) (rest : List Nat) (hb : b ≠ 1) :
    logDecode (b :: rest) = ([], some (.expectedSTX 0 b)) := by
  rw [logDecode, logDecodeGo.eq_def]
  simp [hb]

/-- Witness for C5 at the chunk `[2, 5]`. -/
theorem log_malformed_chunk_witness :
    logDecode [2, 5] = ([], some (.expectedSTX 0 2)) :=
  log_malformed_chunk 2 [5] (by decide)

/-- C9. The silent-discard branch covers only an exactly empty
concatenation: whenever the accumulated buffer at short-chunk time has
total length 1 through 7, one of the two header reads indexes past the end
of the buffer, so the handler throws the out-of-range error and neither
emits a `message` event nor discards silently. -/
theorem messagesIn_subheader_error (bufs : List (List Nat)) (data : List Nat)
    (hshort : data.length < TRANSFER_SIZE)
    (h1 : 1 ≤ ((bufs ++ [data]).flatten).length)
    (h7 : ((bufs ++ [data]).flatten).length ≤ 7) :
    messageInStep bufs data = .error .indexOutOfRange := by
  have h0 : 0 < ((bufs ++ [data]).flatten).length := h1
  simp only [messageInStep, readUInt32LE]
  rw [if_pos hshort, if_pos h0]
  by_cases h4 : 0 + 4 ≤ ((bufs ++ [data]).flatten).length
  · rw [if_pos h4, if_neg (by omega)]
  · rw [if_neg h4]

/-- Witness for C9 at a single 1-byte chunk. -/
theorem messagesIn_subheader_error_witness :
    messageInStep [] [(5 : Nat)] = .error .indexOutOfRange :=
  messagesIn_subheader_error [] [5] (by decide) (by decide) (by decide)

/-- C10. The reassembled frame's declared length field (bytes 0-3) is
read but never used: for every accumulated buffer of at least 8 bytes at
short-chunk time the emitted payload is exactly the buffer minus its first
8 bytes, and two buffers that agree from byte 4 on produce identical
results however much their length fields disagree. -/
theorem messagesIn_ignores_length_field (bufs bufs' : List (List Nat))
    (data data' : List Nat)
    (hshort : data.length < TRANSFER_SIZE)
    (hshort' : data'.length < TRANSFER_SIZE)
    (hlen : 8 ≤ ((bufs ++ [data]).flatten).length)
    (hagree : ((bufs ++ [data]).flatten).drop 4 = ((bufs' ++ [data']).flatten).drop 4) :
    messageInStep bufs data
      = .ok ([], [MsgEvent.message (le32At ((bufs ++ [data]).flatten) 4)
          (((bufs ++ [data]).flatten).drop 8)])
    ∧ messageInStep bufs data = messageInStep bufs' data' := by
  have hlen' : 8 ≤ ((bufs' ++ [data']).flatten).length := by
    have h1 : (((bufs ++ [data]).flatten).drop 4).length
        = ((bufs ++ [data]).flatten).length - 4 := by simp
    have h2 : (((bufs' ++ [data']).flatten).drop 4).length
        = ((bufs' ++ [data']).flatten).length - 4 := by simp
    rw [hagree] at h1
    omega
  have hA := messageInStep_flush bufs data hshort hlen
  have hB := messageInStep_flush bufs' data' hshort' hlen'
  refine ⟨hA, ?_⟩
  rw [hA, hB]
  have htag : le32At ((bufs ++ [data]).flatten) 4
      = le32At ((bufs' ++ [data']).flatten) 4 := le32At_eq_of_drop_eq hagree
  have hpay : ((bufs ++ [data]).flatten).drop 8
      = ((bufs' ++ [data']).flatten).drop 8 := by
    have h := congrArg (List.drop 4) hagree
    simpa [List.drop_drop] using h
  rw [htag, hpay]

/-- Witness for C10: two 9-byte frames whose declared lengths (255 vs 0)
both disagree with the actual 1-byte payload, and agree from byte 4 on. -/
theorem messagesIn_ignores_length_field_witness :
    messageInStep [] [(255 : Nat), 0, 0, 0, 7, 0, 0, 0, 42]
      = .ok ([], [MsgEvent.message 7 [42]])
    ∧ messageInStep [] [(255 : Nat), 0, 0, 0, 7, 0, 0, 0, 42]
      = messageInStep [] [(0 : Nat), 0, 0, 0, 7, 0, 0, 0, 42] := by
  have h := messagesIn_ignores_length_field [] [] [255, 0, 0, 0, 7, 0, 0, 0, 42]
    [0, 0, 0, 0, 7, 0, 0, 0, 42] (by decide) (by decide) (by decide) rfl
  exact ⟨h.1.trans rfl, h.2⟩

theorem shiftRight8_eq_div (n : Nat) : n >>> 8 = n / 256 := by
  rw [Nat.shiftRight_eq_div_pow]

/-- C6. `close()` is idempotent and never fails outward: in every
transport state and whatever error the underlying release reports, the call
resolves; with no claimed interface the state is untouched (the executor's
late `TypeError` is swallowed by the already-resolved promise); otherwise
the interface is released (interface cleared) and the device handle closed,
even when release reports an error; and a second `close()` resolves again
without changing anything. -/
theorem close_idempotent_never_fails (s : USBState) (err err' : Option String) :
    (USBTransport.close s err).1 = .resolved
    ∧ (s.hasInterface = false → (USBTransport.close s err).2 = s)
    ∧ (USBTransport.close (USBTransport.close s err).2 err').1 = .resolved
    ∧ (USBTransport.close (USBTransport.close s err).2 err').2
        = (USBTransport.close s err).2
    ∧ (s.hasInterface = true →
        (USBTransport.close s err).2.hasInterface = false
        ∧ (s.hasDevice = true → (USBTransport.close s err).2.deviceOpen = false)) := by
  unfold USBTransport.close
  by_cases h : s.hasInterface
  · exact ⟨by simp [h], by simp [h], by simp [h], by simp [h],
      fun _ => ⟨by simp [h], fun hd => by simp [h, hd]⟩⟩
  · simp [h]

/-- Witness for C6 from a fully-open state with a failing release. -/
theorem close_idempotent_never_fails_witness :
    (USBTransport.close ⟨true, true, true⟩ (some "boom")).1 = CloseOutcome.resolved
    ∧ (USBTransport.close
        (USBTransport.close ⟨true, true, true⟩ (some "boom")).2 none).1
          = CloseOutcome.resolved := by
  have h := close_idempotent_never_fails ⟨true, true, true⟩ (some "boom") none
  exact ⟨h.1, h.2.2.1⟩

/-- C7. Enumeration returns exactly the attached descriptors with
vendor id 0x1D50, product id 0x6097, and a nonzero firmware-version high
byte, preserving enumeration order and returning an empty list rather than
an error when nothing matches; selecting the first candidate returns the
head of that list and fails with the device-not-found error if and only if
the list is empty. -/
theorem device_enumeration (attached : List DeviceDescriptor) :
    (∀ d, d ∈ USBTransport.getDevices attached ↔
      d ∈ attached ∧ d.idVendor = 0x1d50 ∧ d.idProduct = 0x6097
        ∧ d.bcdDevice / 256 ≠ 0)
    ∧ (USBTransport.getDevices attached).Sublist attached
    ∧ (USBTransport.getFirstDevice attached = .error "No Tessel devices found"
        ↔ USBTransport.getDevices attached = [])
    ∧ ∀ d rest, USBTransport.getDevices attached = d :: rest →
        USBTransport.getFirstDevice attached = .ok d := by
  refine ⟨?_, List.filter_sublist _, ?_, ?_⟩
  · intro d
    simp [USBTransport.getDevices, List.mem_filter, shiftRight8_eq_div,
      and_assoc]
  · unfold USBTransport.getFirstDevice
    cases h : USBTransport.getDevices attached with
    | nil => simp
    | cons d rest => simp
  · intro d rest h
    unfold USBTransport.getFirstDevice
    rw [h]

/-- Witness for C7: a bootloader-mode unit is skipped, the next matching
unit is selected. -/
theorem device_enumeration_witness :
    USBTransport.getFirstDevice
        [⟨0x1d50, 0x6097, 0⟩, ⟨0x1d50, 0x6097, 0x0100⟩]
      = .ok ⟨0x1d50, 0x6097, 0x0100⟩ := by
  exact (device_enumeration [⟨0x1d50, 0x6097, 0⟩, ⟨0x1d50, 0x6097, 0x0100⟩]).2.2.2
    ⟨0x1d50, 0x6097, 0x0100⟩ [] rfl

/-- C8. During `init()`, once a device has been found, a claim failure
with message `LIBUSB_ERROR_BUSY` rejects `init()` with the device-busy
error, any other claim failure is surfaced unchanged, and in both cases
`init()` never reaches the ready state. -/
theorem init_claim_failure (env : InitEnv) (d : DeviceDescriptor) (e : String)
    (hdev : USBTransport.getFirstDevice env.devices = .ok d)
    (hclaim : env.claimResult = .error e) :
    USBTransport.init env
      = .failed (if e = "LIBUSB_ERROR_BUSY"
          then "Device is in use by another process" else e)
    ∧ ∀ serial, USBTransport.init env ≠ .ready serial := by
  have hmain : USBTransport.init env
      = .failed (if e = "LIBUSB_ERROR_BUSY"
          then "Device is in use by another process" else e) := by
    unfold USBTransport.init USBTransport.getDeviceInterface
    rw [hdev, hclaim]
  refine ⟨hmain, ?_⟩
  intro serial hready
  rw [hmain] at hready
  exact InitOutcome.noConfusion hready

/-- Witness for C8 at a busy claim over one attached device. -/
theorem init_claim_failure_witness :
    USBTransport.init
        ⟨[⟨0x1d50, 0x6097, 0x0100⟩], .error "LIBUSB_ERROR_BUSY", .ok (), .ok "T1"⟩
      = .failed "Device is in use by another process" := by
  have h := init_claim_failure
    ⟨[⟨0x1d50, 0x6097, 0x0100⟩], .error "LIBUSB_ERROR_BUSY", .ok (), .ok "T1"⟩
    ⟨0x1d50, 0x6097, 0x0100⟩ "LIBUSB_ERROR_BUSY" rfl rfl
  exact h.1.trans (by simp)
